import Mathlib

/-!
# Verification of `exact_outline_post.py`

A shallow embedding of the G-code post-processor `exact_outline_post.py`:
the stream scanner (object tracking, support regions, insertion anchor),
the coordinate extraction, the hull/simplification pipeline and the
`EXCLUDE_OBJECT_DEFINE` command emitter.

Lines of text are embedded as `List Char`; Python floats are embedded as
rationals (`ℚ`), with rounding `round(x, k)` embedded as rounding of the
scaled rational (ties differ from Python's bankers rounding, which no
statement here depends on).  The two external geometry collaborators
(`alphashape.alphashape` and shapely's `Polygon.simplify`) are kept as
explicit function parameters of the pipeline; shapely's `convex_hull` is
modelled by the standard monotone-chain algorithm.
-/

namespace ExactOutline

section

/- Mathlib marks the core rational operations irreducible; restoring their
reducibility file-locally lets concrete runs of the pipeline be evaluated
by `decide`. -/
attribute [local semireducible] Rat.mul Rat.add Rat.sub Rat.inv

/-- A 2D point with rational coordinates (model of a pair of Python floats). -/
abbrev Point : Type := ℚ × ℚ

/-! ## String helpers (models of the Python `str` operations used) -/

/-- Model of Python `str.strip()`: drop whitespace from both ends. -/
def stripL (s : List Char) : List Char :=
  ((s.dropWhile Char.isWhitespace).reverse.dropWhile Char.isWhitespace).reverse

/-- Model of Python `str.lower()` (ASCII case folding). -/
def lowerL (s : List Char) : List Char := s.map Char.toLower

/-- Index of the first occurrence of `needle` in the haystack, if any
(model of the search underlying Python `str.find` / `in`). -/
def findSub? (needle : List Char) : List Char → Option Nat
  | [] => if needle.isEmpty then some 0 else none
  | c :: t =>
    if needle.isPrefixOf (c :: t) then some 0
    else (findSub? needle t).map (· + 1)

/-- Model of Python `str.find`: index of the first occurrence, `-1` if absent. -/
def pyFind (hay needle : List Char) : Int :=
  match findSub? needle hay with
  | some k => (k : Int)
  | none => -1

/-- Model of Python `needle in hay` substring containment. -/
def containsSub (hay needle : List Char) : Bool :=
  (findSub? needle hay).isSome

/-- Helper for `pysplit`: accumulates the current (reversed) token. -/
def pysplitAux : List Char → List Char → List (List Char)
  | [], cur => if cur.isEmpty then [] else [cur.reverse]
  | c :: cs, cur =>
    if c.isWhitespace then
      if cur.isEmpty then pysplitAux cs [] else cur.reverse :: pysplitAux cs []
    else pysplitAux cs (c :: cur)

/-- Model of Python `str.split()` with no argument: split on runs of
whitespace, discarding empty tokens. -/
def pysplit (s : List Char) : List (List Char) := pysplitAux s []

/-- Fuelled worker for `splitOnSub` (the fuel `s.length + 1` always
suffices for a non-empty separator, the only way it is used). -/
def splitOnSubF (needle : List Char) : Nat → List Char → List (List Char)
  | 0, s => [s]
  | f + 1, s =>
    match findSub? needle s with
    | none => [s]
    | some i => s.take i :: splitOnSubF needle f (s.drop (i + needle.length))

/-- Model of Python `str.split(sep)` for a non-empty separator: split at
every non-overlapping occurrence, left to right. -/
def splitOnSub (s needle : List Char) : List (List Char) :=
  splitOnSubF needle (s.length + 1) s

/-! ## Numeric parsing and rounding -/

/-- Value of a string of decimal digits. -/
def digitsVal (ds : List Char) : ℕ :=
  ds.foldl (fun a c => a * 10 + (c.toNat - 48)) 0

/-- A non-empty all-digit string, as a natural number. -/
def parseNatDigits? (ds : List Char) : Option ℕ :=
  if ds ≠ [] ∧ ds.all Char.isDigit then some (digitsVal ds) else none

/-- Model of Python `int(...)` on a whitespace-free token: optional sign
followed by decimal digits. -/
def parseInt? (s : List Char) : Option Int :=
  match s with
  | '-' :: r => (parseNatDigits? r).map (fun n => -(n : Int))
  | '+' :: r => (parseNatDigits? r).map (fun n => (n : Int))
  | r => (parseNatDigits? r).map (fun n => (n : Int))

/-- Unsigned decimal literal with an optional fractional part. -/
def parseUFloat? (r : List Char) : Option ℚ :=
  match splitOnSub r ['.'] with
  | [ip] =>
    if ip ≠ [] ∧ ip.all Char.isDigit then some ((digitsVal ip : ℚ)) else none
  | [ip, fp] =>
    if (ip ++ fp) ≠ [] ∧ (ip ++ fp).all Char.isDigit then
      some ((digitsVal ip : ℚ) + (digitsVal fp : ℚ) / (10 ^ fp.length : ℚ))
    else none
  | _ => none

/-- Model of Python `float(...)` on coordinate tokens: optionally signed
decimal literal (the exponent/`inf`/`nan` forms never occur in G-code
coordinates and are not modelled). -/
def parseFloat? (s : List Char) : Option ℚ :=
  match s with
  | '-' :: r => (parseUFloat? r).map (fun q => -q)
  | '+' :: r => parseUFloat? r
  | r => parseUFloat? r

/-- Model of Python `round(q, k)`: round the scaled value to the nearest
integer (half up) and scale back. -/
def roundTo (k : ℕ) (q : ℚ) : ℚ := ((q * 10 ^ k + 1/2).floor : ℚ) / 10 ^ k

/-- `round(x, 2)` as used for point deduplication. -/
def round2 (q : ℚ) : ℚ := roundTo 2 q

/-- `round(x, 3)` as used for emitted coordinates. -/
def round3 (q : ℚ) : ℚ := roundTo 3 q

/-! ## `extract_xy` (source lines 45–59) -/

/-- One iteration of the token loop of `extract_xy`: a token starting with
`X` (resp. `Y`) whose remainder parses as a float overwrites the current
`x` (resp. `y`); parse failures are ignored. -/
def xyStep (acc : Option ℚ × Option ℚ) (part : List Char) : Option ℚ × Option ℚ :=
  let acc1 :=
    if "X".data.isPrefixOf part then
      match parseFloat? part.tail with
      | some v => (some v, acc.2)
      | none => acc
    else acc
  if "Y".data.isPrefixOf part then
    match parseFloat? part.tail with
    | some v => (acc1.1, some v)
    | none => acc1
  else acc1

/-- `extract_xy(line)`: fold `xyStep` over the whitespace-split tokens,
starting from `(None, None)`. -/
def extract_xy (ls : List Char) : Option ℚ × Option ℚ :=
  (pysplit ls).foldl xyStep (none, none)

/-- The contribution of one token to the `x` coordinate. -/
def xParse (t : List Char) : Option ℚ :=
  if "X".data.isPrefixOf t then parseFloat? t.tail else none

/-- The contribution of one token to the `y` coordinate. -/
def yParse (t : List Char) : Option ℚ :=
  if "Y".data.isPrefixOf t then parseFloat? t.tail else none

lemma getLast?_cons_eq_or (v : ℚ) (l : List ℚ) :
    (v :: l).getLast? = l.getLast?.or (some v) := by
  induction l with
  | nil => simp
  | cons w l ih =>
    rw [List.getLast?_cons_cons]
    rcases l with - | ⟨u, l⟩
    · simp
    · rw [List.getLast?_cons_cons]
      have h : (u :: l).getLast?.isSome := by
        rw [List.getLast?_isSome]
        simp
      rcases ho : (u :: l).getLast? with - | z
      · rw [ho] at h
        simp at h
      · simp [Option.or]

lemma xyStep_fst (acc : Option ℚ × Option ℚ) (t : List Char) :
    (xyStep acc t).1 = (xParse t).or acc.1 := by
  unfold xyStep xParse
  rcases hX : "X".data.isPrefixOf t with - | -
  · simp only [hX, Bool.false_eq_true, if_false]
    rcases hY : "Y".data.isPrefixOf t with - | -
    · simp [hY, Option.or]
    · simp only [hY, if_true]
      rcases parseFloat? t.tail with - | v <;> simp [Option.or]
  · have hY : "Y".data.isPrefixOf t = false := by
      rcases t with - | ⟨c, t⟩
      · simp [List.isPrefixOf] at hX
      · simp only [String.data] at hX ⊢
        simp only [List.isPrefixOf, Bool.and_eq_true] at hX ⊢
        rcases hX with ⟨hc, -⟩
        simp only [beq_iff_eq] at hc
        subst hc
        simp
    simp only [hX, if_true, hY, Bool.false_eq_true, if_false]
    rcases parseFloat? t.tail with - | v <;> simp [Option.or]

lemma xyStep_snd (acc : Option ℚ × Option ℚ) (t : List Char) :
    (xyStep acc t).2 = (yParse t).or acc.2 := by
  unfold xyStep yParse
  rcases hX : "X".data.isPrefixOf t with - | -
  · simp only [hX, Bool.false_eq_true, if_false]
    rcases hY : "Y".data.isPrefixOf t with - | -
    · simp [hY, Option.or]
    · simp only [hY, if_true]
      rcases parseFloat? t.tail with - | v <;> simp [Option.or]
  · simp only [hX, if_true]
    rcases hY : "Y".data.isPrefixOf t with - | -
    · simp only [hY, Bool.false_eq_true, if_false]
      rcases parseFloat? t.tail with - | v <;> simp [Option.or]
    · simp only [hY, if_true]
      rcases parseFloat? t.tail with - | v <;>
        rcases parseFloat? t.tail with - | w <;> simp [Option.or]

lemma foldl_xyStep_fst (ts : List (List Char)) :
    ∀ acc : Option ℚ × Option ℚ,
      (ts.foldl xyStep acc).1 = ((ts.filterMap xParse).getLast?).or acc.1 := by
  induction ts with
  | nil => intro acc; simp [Option.or]
  | cons t ts ih =>
    intro acc
    rw [List.foldl_cons, ih (xyStep acc t), xyStep_fst]
    rcases hp : xParse t with - | v
    · simp [List.filterMap_cons, hp]
    · simp only [List.filterMap_cons, hp]
      rw [getLast?_cons_eq_or, Option.or_assoc]

lemma foldl_xyStep_snd (ts : List (List Char)) :
    ∀ acc : Option ℚ × Option ℚ,
      (ts.foldl xyStep acc).2 = ((ts.filterMap yParse).getLast?).or acc.2 := by
  induction ts with
  | nil => intro acc; simp [Option.or]
  | cons t ts ih =>
    intro acc
    rw [List.foldl_cons, ih (xyStep acc t), xyStep_snd]
    rcases hp : yParse t with - | v
    · simp [List.filterMap_cons, hp]
    · simp only [List.filterMap_cons, hp]
      rw [getLast?_cons_eq_or, Option.or_assoc]

/-- C10: on every motion line, `extract_xy` returns, for each axis, the
value of the last whitespace-delimited field starting with `X` (resp. `Y`)
whose remainder parses as a float; later malformed fields do not clear an
earlier parse, and with no parseable field the axis yields `none`. -/
theorem extract_xy_last_parsed (ls : List Char) :
    (extract_xy ls).1 = ((pysplit ls).filterMap xParse).getLast? ∧
    (extract_xy ls).2 = ((pysplit ls).filterMap yParse).getLast? := by
  unfold extract_xy
  constructor
  · rw [foldl_xyStep_fst]
    rcases ((pysplit ls).filterMap xParse).getLast? with - | v <;> rfl
  · rw [foldl_xyStep_snd]
    rcases ((pysplit ls).filterMap yParse).getLast? with - | v <;> rfl

/-! ## Stream scanner (source lines 75–135) -/

/-- Per-object record: the name parsed from the start marker and the
deduplicated list of rounded sample points (model of the Python `set`,
kept in insertion order). -/
structure GObj where
  name : List Char
  points : List Point
deriving DecidableEq, Inhabited

/-- The scanner state threaded through the line loop of `main`:
the id-keyed object mapping in encounter order, the active object id,
the support-region flag and the recorded insertion position. -/
structure ScanState where
  objects : List (Int × GObj)
  current : Option Int
  inSupport : Bool
  insertPos : Option ℕ
deriving DecidableEq, Inhabited

/-- Idempotent point insertion (model of `set.add` on rounded pairs). -/
def insertPt (ps : List Point) (p : Point) : List Point :=
  if p ∈ ps then ps else ps ++ [p]

/-- Add a sample point to the record of object `id`. -/
def addPointTo (objs : List (Int × GObj)) (id : Int) (p : Point) :
    List (Int × GObj) :=
  objs.map (fun e => if e.1 = id then (e.1, ⟨e.2.name, insertPt e.2.points p⟩) else e)

/-- The anchor condition of source line 89: the stripped line is
non-empty, is not a comment, and starts with `G` or `M`. -/
def anchorQualifies (ls : List Char) : Bool :=
  !ls.isEmpty && !(";".data.isPrefixOf ls) &&
    ("G".data.isPrefixOf ls || "M".data.isPrefixOf ls)

/-- Record the insertion position at line `i` if not yet recorded and the
line qualifies (source lines 88–90). -/
def anchorUpd (st : ScanState) (i : ℕ) (ls : List Char) : ScanState :=
  if st.insertPos = none ∧ anchorQualifies ls then
    { st with insertPos := some i }
  else st

/-- Model of `int(ls.split("id:")[1].split()[0])` wrapped in `try`:
the whole chain yields `none` on any failure (source lines 104–107). -/
def parseIdFrom (ls : List Char) : Option Int :=
  match (splitOnSub ls "id:".data).get? 1 with
  | none => none
  | some seg =>
    match (pysplit seg).head? with
    | none => none
    | some tok => parseInt? tok

/-- The `"; printing object"` branch (source lines 93–113): clear the
support flag, then parse name and id; on any parse failure the line only
clears the support flag. -/
def objStart (st : ScanState) (ls : List Char) : ScanState :=
  let st1 : ScanState := { st with inSupport := false }
  let nameStart : Int := pyFind ls "object".data + 7
  let idStart : Int := pyFind ls "id:".data
  if nameStart > 7 ∧ idStart > 0 then
    let name := stripL ((ls.drop nameStart.toNat).take (idStart - nameStart).toNat)
    match parseIdFrom ls with
    | some objId =>
      let st2 : ScanState := { st1 with current := some objId }
      if (st2.objects.lookup objId).isSome then st2
      else { st2 with objects := st2.objects ++ [(objId, ⟨name, []⟩)] }
    | none => st1
  else st1

/-- The motion-line branch (source lines 130–135): while an object is
active and not in support, a `G1`/`G0` line with both coordinates present
inserts the rounded pair into that object's point set. -/
def motionUpd (st : ScanState) (ls : List Char) : ScanState :=
  match st.current with
  | some cid =>
    if !st.inSupport && ("G1".data.isPrefixOf ls || "G0".data.isPrefixOf ls) then
      match extract_xy ls with
      | (some x, some y) =>
        { st with objects := addPointTo st.objects cid (round2 x, round2 y) }
      | _ => st
    else st
  | none => st

/-- The branch dispatch of the line loop (source lines 93–135), on the
stripped line. -/
def bodyStep (st : ScanState) (ls : List Char) : ScanState :=
  if "; printing object".data.isPrefixOf ls then objStart st ls
  else if "; stop printing object".data.isPrefixOf ls then
    { st with current := none }
  else if containsSub ls ";TYPE:Support".data ||
      containsSub (lowerL ls) ";type:support".data then
    { st with inSupport := true }
  else
    let st1 :=
      if containsSub ls ";TYPE:".data ∧ containsSub ls ";TYPE:Support".data = false
      then { st with inSupport := false }
      else st
    motionUpd st1 ls

/-- Process one line of the stream at index `i` (source lines 84–135). -/
def scanStep (st : ScanState) (i : ℕ) (line : List Char) : ScanState :=
  bodyStep (anchorUpd st i (stripL line)) (stripL line)

/-- The initial scanner state (source lines 75–79). -/
def initState : ScanState := ⟨[], none, false, none⟩

/-- The full scan over the enumerated input lines. -/
def scanLines (lines : List (List Char)) : ScanState :=
  lines.enum.foldl (fun st p => scanStep st p.1 p.2) initState

/-- The final insertion position, defaulting to 0 when no line qualified
(source lines 193–195). -/
def insertAnchor (lines : List (List Char)) : ℕ :=
  (scanLines lines).insertPos.getD 0

/-! ## The insertion anchor (claim C7) -/

lemma objStart_insertPos (st : ScanState) (ls : List Char) :
    (objStart st ls).insertPos = st.insertPos := by
  unfold objStart
  dsimp only
  split
  · rcases h : parseIdFrom ls with - | objId <;>
      first
      | rfl
      | (dsimp only; split <;> rfl)
  · rfl

lemma motionUpd_insertPos (st : ScanState) (ls : List Char) :
    (motionUpd st ls).insertPos = st.insertPos := by
  unfold motionUpd
  rcases st.current with - | cid
  · rfl
  · dsimp only
    split
    · rcases extract_xy ls with ⟨- | x, - | y⟩ <;> rfl
    · rfl

lemma bodyStep_insertPos (st : ScanState) (ls : List Char) :
    (bodyStep st ls).insertPos = st.insertPos := by
  unfold bodyStep
  split
  · exact objStart_insertPos st ls
  · split
    · rfl
    · split
      · rfl
      · dsimp only
        split
        · exact motionUpd_insertPos _ ls
        · exact motionUpd_insertPos _ ls

lemma scanStep_insertPos (st : ScanState) (i : ℕ) (line : List Char) :
    (scanStep st i line).insertPos =
      if st.insertPos = none ∧ anchorQualifies (stripL line) then some i
      else st.insertPos := by
  unfold scanStep
  rw [bodyStep_insertPos]
  unfold anchorUpd
  split <;> rfl

lemma foldl_scanStep_insertPos (lines : List (List Char)) :
    ∀ (n : ℕ) (st : ScanState),
      ((lines.enumFrom n).foldl (fun st p => scanStep st p.1 p.2) st).insertPos =
        match st.insertPos with
        | some k => some k
        | none => lines.findIdx? (fun l => anchorQualifies (stripL l)) n := by
  induction lines with
  | nil =>
    intro n st
    rcases h : st.insertPos with - | k <;> simp [List.enumFrom, h, List.findIdx?]
  | cons l lines ih =>
    intro n st
    rw [List.enumFrom_cons, List.foldl_cons, ih (n + 1) _,
      scanStep_insertPos st n l]
    rcases hip : st.insertPos with - | k <;>
      rcases hq : anchorQualifies (stripL l) with - | - <;>
        simp [hip, hq, List.findIdx?_cons]

lemma findIdx?_lt_add_length {α : Type} (p : α → Bool) (l : List α) :
    ∀ n i, l.findIdx? p n = some i → i < n + l.length := by
  induction l with
  | nil => intro n i h; simp [List.findIdx?] at h
  | cons x xs ih =>
    intro n i h
    rw [List.findIdx?_cons] at h
    by_cases hp : p x = true
    · rw [if_pos hp] at h
      injection h with h
      subst h
      simp
    · rw [if_neg hp] at h
      have := ih (n + 1) i h
      simpa [Nat.add_comm, Nat.add_left_comm] using this

lemma insertAnchor_eq (lines : List (List Char)) :
    insertAnchor lines =
      (lines.findIdx? (fun l => anchorQualifies (stripL l))).getD 0 := by
  unfold insertAnchor scanLines
  rw [show lines.enum = lines.enumFrom 0 from rfl,
    foldl_scanStep_insertPos lines 0 initState]
  rfl

lemma insertAnchor_le_length (lines : List (List Char)) :
    insertAnchor lines ≤ lines.length := by
  rw [insertAnchor_eq]
  rcases h : lines.findIdx? (fun l => anchorQualifies (stripL l)) with - | i
  · simp
  · have := findIdx?_lt_add_length _ lines 0 i h
    simpa using Nat.le_of_lt (by simpa using this)

/-- C7: the insertion anchor is the index of the first line of the stream
whose stripped text is non-empty, is not a comment, and starts with `G` or
`M`; it is recorded once and never overwritten (it equals the index of the
first qualifying line), and defaults to position 0 when no line of the
stream qualifies. -/
theorem insertAnchor_first_qualifying (lines : List (List Char)) :
    insertAnchor lines =
      (lines.findIdx? (fun l => anchorQualifies (stripL l))).getD 0 :=
  insertAnchor_eq lines

/-! ## Scanner state transitions (claims C2 and C9) -/

lemma anchorUpd_current (st : ScanState) (i : ℕ) (ls : List Char) :
    (anchorUpd st i ls).current = st.current := by
  unfold anchorUpd
  split <;> rfl

lemma anchorUpd_inSupport (st : ScanState) (i : ℕ) (ls : List Char) :
    (anchorUpd st i ls).inSupport = st.inSupport := by
  unfold anchorUpd
  split <;> rfl

lemma anchorUpd_objects (st : ScanState) (i : ℕ) (ls : List Char) :
    (anchorUpd st i ls).objects = st.objects := by
  unfold anchorUpd
  split <;> rfl

lemma motionUpd_current (st : ScanState) (ls : List Char) :
    (motionUpd st ls).current = st.current := by
  unfold motionUpd
  rcases h : st.current with - | cid
  · exact h
  · dsimp only
    split
    · rcases extract_xy ls with ⟨- | x, - | y⟩ <;>
        first
        | rfl
        | exact h
    · exact h

lemma motionUpd_inSupport (st : ScanState) (ls : List Char) :
    (motionUpd st ls).inSupport = st.inSupport := by
  unfold motionUpd
  rcases st.current with - | cid
  · rfl
  · dsimp only
    split
    · rcases extract_xy ls with ⟨- | x, - | y⟩ <;> rfl
    · rfl

lemma semicolon_prefix_of_printing {ls : List Char}
    (h : "; printing object".data.isPrefixOf ls = true) :
    ";".data.isPrefixOf ls = true := by
  rw [List.isPrefixOf_iff_prefix] at h ⊢
  exact List.IsPrefix.trans (by decide) h

lemma anchorQualifies_of_printing {ls : List Char}
    (h : "; printing object".data.isPrefixOf ls = true) :
    anchorQualifies ls = false := by
  unfold anchorQualifies
  rw [semicolon_prefix_of_printing h]
  simp

lemma anchorUpd_of_not_qualifies (st : ScanState) (i : ℕ) {ls : List Char}
    (h : anchorQualifies ls = false) : anchorUpd st i ls = st := by
  unfold anchorUpd
  rw [if_neg]
  rintro ⟨-, hq⟩
  rw [h] at hq
  exact Bool.false_ne_true hq

/-- C9: a stream line starting with the object-start prefix from which no
integer id can be parsed after an `id:` token (the token is absent, or the
value after it is malformed) leaves the active object id and the object
records unchanged, and unconditionally clears the support flag. -/
theorem objStart_parse_failure (st : ScanState) (i : ℕ) (line : List Char)
    (h1 : "; printing object".data.isPrefixOf (stripL line) = true)
    (h2 : pyFind (stripL line) "id:".data ≤ 0 ∨ parseIdFrom (stripL line) = none) :
    scanStep st i line = { st with inSupport := false } := by
  unfold scanStep bodyStep
  rw [anchorUpd_of_not_qualifies st i (anchorQualifies_of_printing h1), if_pos h1]
  unfold objStart
  dsimp only
  rcases h2 with h2 | h2
  · rw [if_neg]
    rintro ⟨-, hgt⟩
    have h2a : pyFind (stripL line) (['i', 'd', ':'] : List Char) ≤ 0 := h2
    omega
  · split
    · rw [h2]
    · rfl

/-- Concrete object-start line with a malformed id, used by the C9 witness. -/
def c9Line : List Char := "; printing object Cube id: x\n".data

/-- Concrete scanner state used by the C2/C9 concrete runs. -/
def supportState : ScanState := ⟨[(1, ⟨"Cube".data, []⟩)], some 1, true, some 0⟩

theorem objStart_parse_failure_witness :
    ("; printing object".data.isPrefixOf (stripL c9Line) = true) ∧
    (pyFind (stripL c9Line) "id:".data ≤ 0 ∨ parseIdFrom (stripL c9Line) = none) ∧
    scanStep supportState 7 c9Line = { supportState with inSupport := false } :=
  ⟨by decide, Or.inr (by decide),
    objStart_parse_failure supportState 7 c9Line (by decide) (Or.inr (by decide))⟩

/-- C2 (amended): while an object id is active, a region-type marker whose
value denotes support — by exact token `;TYPE:Support`, or case-insensitively
via lowercasing — enters the support state preserving the id and the records;
a marker containing the exact-case token `;TYPE:` with a value other than
`Support` clears the support flag and preserves the id.  (The clearing branch
is case-sensitive in the `;TYPE:` token: markers written in any other letter
case leave the support flag unchanged — see the counterexample.) -/
theorem regionTypeMarker_supportFlag (st : ScanState) (i : ℕ) (line : List Char)
    (id : Int) (hcur : st.current = some id)
    (hnp : "; printing object".data.isPrefixOf (stripL line) = false)
    (hns : "; stop printing object".data.isPrefixOf (stripL line) = false) :
    ((containsSub (stripL line) ";TYPE:Support".data ||
        containsSub (lowerL (stripL line)) ";type:support".data) = true →
      (scanStep st i line).inSupport = true ∧
      (scanStep st i line).current = some id ∧
      (scanStep st i line).objects = st.objects) ∧
    (containsSub (stripL line) ";TYPE:Support".data = false →
      containsSub (lowerL (stripL line)) ";type:support".data = false →
      containsSub (stripL line) ";TYPE:".data = true →
      (scanStep st i line).inSupport = false ∧
      (scanStep st i line).current = some id) := by
  constructor
  · intro hsup
    unfold scanStep bodyStep
    rw [if_neg (by rw [hnp]; exact Bool.false_ne_true),
      if_neg (by rw [hns]; exact Bool.false_ne_true), if_pos hsup]
    refine ⟨rfl, ?_, ?_⟩
    · show (anchorUpd st i (stripL line)).current = some id
      rw [anchorUpd_current, hcur]
    · show (anchorUpd st i (stripL line)).objects = st.objects
      rw [anchorUpd_objects]
  · intro hs1 hs2 hty
    unfold scanStep bodyStep
    rw [if_neg (by rw [hnp]; exact Bool.false_ne_true),
      if_neg (by rw [hns]; exact Bool.false_ne_true),
      if_neg (by rw [hs1, hs2]; simp)]
    dsimp only
    rw [if_pos ⟨hty, hs1⟩]
    constructor
    · rw [motionUpd_inSupport]
    · rw [motionUpd_current, anchorUpd_current, hcur]

/-- C2 counterexample: with an active object in the support state, the
lowercase region-type marker `;type:skirt` — a non-support region-type
marker that differs from `;TYPE:` only in letter case — leaves the scanner
in the support state instead of returning it to the point-collecting state
as the claim asserts. -/
theorem regionTypeMarker_case_sensitive_counterexample :
    (scanStep supportState 5 ";type:skirt".data).inSupport = true ∧
    (scanStep supportState 5 ";type:skirt".data).current = some 1 := by
  decide

theorem regionTypeMarker_supportFlag_witness :
    (supportState.current = some 1) ∧
    ((scanStep supportState 5 ";TYPE:Support interface\n".data).inSupport = true ∧
      (scanStep supportState 5 ";TYPE:Support interface\n".data).current = some 1 ∧
      (scanStep supportState 5 ";TYPE:Support interface\n".data).objects =
        supportState.objects) ∧
    ((scanStep supportState 5 ";TYPE:Skirt\n".data).inSupport = false ∧
      (scanStep supportState 5 ";TYPE:Skirt\n".data).current = some 1) :=
  ⟨rfl,
    (regionTypeMarker_supportFlag supportState 5 ";TYPE:Support interface\n".data 1
      rfl (by decide) (by decide)).1 (by decide),
    (regionTypeMarker_supportFlag supportState 5 ";TYPE:Skirt\n".data 1
      rfl (by decide) (by decide)).2 (by decide) (by decide) (by decide)⟩

/-! ## Geometry: shapely-style geometries and the hull builders -/

/-- The shapely geometry kinds reachable in this pipeline.  A polygon
carries its exterior coordinate ring exactly as shapely stores it: a
closed list whose last vertex repeats the first. -/
inductive Geom where
  | empty : Geom
  | pointG : Point → Geom
  | line : List Point → Geom
  | poly : List Point → Geom
  | multipoly : List (List Point) → Geom
deriving DecidableEq, Inhabited

/-- Model of shapely `is_empty`. -/
def geomIsEmpty : Geom → Bool
  | .empty => true
  | .pointG _ => false
  | .line ps => ps.isEmpty
  | .poly r => r.isEmpty
  | .multipoly rs => rs.isEmpty

/-- Twice the signed area contribution used by the shoelace formula,
summed over consecutive vertices of a closed ring. -/
def shoelace : List Point → ℚ
  | p :: q :: rest => (p.1 * q.2 - q.1 * p.2) + shoelace (q :: rest)
  | _ => 0

/-- Model of shapely `Polygon.area`: unsigned enclosed area of the
exterior ring. -/
def polyArea (ring : List Point) : ℚ := |shoelace ring| / 2

/-- Model of Python `max(geoms, key=area)`: the first ring of maximal
area (later ties do not replace an earlier maximum). -/
def maxByArea (rs : List (List Point)) : Option (List Point) :=
  rs.foldl
    (fun best r =>
      match best with
      | none => some r
      | some b => if polyArea r > polyArea b then some r else some b)
    none

/-- Cross product of `oa` and `ob` — the orientation test of the
monotone-chain hull construction. -/
def crossP (o a b : Point) : ℚ :=
  (a.1 - o.1) * (b.2 - o.2) - (a.2 - o.2) * (b.1 - o.1)

/-- Lexicographic comparison on points. -/
def lexLe (p q : Point) : Bool :=
  if p.1 = q.1 then decide (p.2 ≤ q.2) else decide (p.1 ≤ q.1)

/-- Insertion step of the lexicographic insertion sort. -/
def insertLex (p : Point) : List Point → List Point
  | [] => [p]
  | q :: qs => if lexLe p q then p :: q :: qs else q :: insertLex p qs

/-- Lexicographic insertion sort of the point list. -/
def sortLex (l : List Point) : List Point := l.foldr insertLex []

/-- Push a point onto a half-hull (stored top-first), popping while the
last turn is not strictly convex. -/
def addPoint (p : Point) : List Point → List Point
  | b :: a :: rest => if crossP a b p ≤ 0 then addPoint p (a :: rest) else p :: b :: a :: rest
  | h => p :: h

/-- One monotone half-hull of the (sorted) input, in traversal order. -/
def halfHull (pts : List Point) : List Point :=
  (pts.foldl (fun h p => addPoint p h) []).reverse

/-- Monotone-chain convex hull: the open ring of hull vertices.
Modelled from the spec: shapely's `MultiPoint(...).convex_hull` is an
external library call, reimplemented here by the standard monotone-chain
algorithm the spec prescribes for the convex fallback. -/
def convexHullPts (pts : List Point) : List Point :=
  let s := sortLex pts
  if s.length ≤ 2 then s
  else (halfHull s).dropLast ++ (halfHull s.reverse).dropLast

/-- Model of shapely `MultiPoint(points).convex_hull`: a polygon with a
closed exterior ring for three or more hull vertices, and the degenerate
lower-dimensional geometries otherwise (collinear input gives a line). -/
def convex_hull (pts : List Point) : Geom :=
  match convexHullPts pts with
  | [] => Geom.empty
  | [p] => Geom.pointG p
  | [p, q] => Geom.line [p, q]
  | a :: b :: c :: rest => Geom.poly ((a :: b :: c :: rest) ++ [a])

/-- `concave_hull(points, alpha)` (source lines 7–28): fewer than 4 points
use the convex hull directly; otherwise the external `alphashape` result
(the parameter `αf`) is used when it is a polygon, the largest part is
kept for a multi-polygon, and anything else — including an exception,
modelled by any non-polygon value — falls back to the convex hull. -/
def concave_hull (αf : List Point → ℚ → Geom) (points : List Point) (alpha : ℚ) : Geom :=
  if points.length < 4 then convex_hull points
  else
    match αf points alpha with
    | Geom.poly r => Geom.poly r
    | Geom.multipoly rs =>
      match maxByArea rs with
      | some r => Geom.poly r
      | none => convex_hull points
    | _ => convex_hull points

/-! ## `simplify_polygon` (source lines 30–43) -/

/-- The tolerance-escalation loop of `simplify_polygon`: while the current
simplification has more vertices than `maxPoints` and the tolerance is
below 10, raise the tolerance by 0.5 and re-simplify the original ring
(the external shapely `simplify` is the parameter `σf`). -/
def simplifyGo (σf : List Point → ℚ → List Point) (ring : List Point)
    (maxPoints : ℕ) (tol : ℚ) (cur : List Point) : List Point × ℚ :=
  if h : maxPoints < cur.length ∧ tol < 10 then
    simplifyGo σf ring maxPoints (tol + 1/2) (σf ring (tol + 1/2))
  else (cur, tol)
termination_by (Int.ceil ((10 - tol) * 2)).toNat
decreasing_by
  have e : ((10 - (tol + 1/2)) * 2 : ℚ) = (10 - tol) * 2 - 1 := by ring
  have e2 : ⌈((10 - tol) * 2 - 1 : ℚ)⌉ = ⌈((10 - tol) * 2 : ℚ)⌉ - 1 := by
    exact_mod_cast Int.ceil_sub_int ((10 - tol) * 2) 1
  have hpos : 0 < ⌈((10 - tol) * 2 : ℚ)⌉ := by
    rw [Int.ceil_pos]
    linarith [h.2]
  rw [e, e2]
  omega

/-- `simplify_polygon(poly, max_points)`: non-polygons are returned
unchanged; a polygon's ring goes through the escalation loop starting at
tolerance 0.1. -/
def simplify_polygon (σf : List Point → ℚ → List Point) (g : Geom)
    (maxPoints : ℕ) : Geom :=
  match g with
  | Geom.poly ring =>
    Geom.poly (simplifyGo σf ring maxPoints (1/10) (σf ring (1/10))).1
  | g => g

/-! ## Command emitter (source lines 137–191) -/

/-- The content of one serialized `EXCLUDE_OBJECT_DEFINE` command: the
display name, the centre pair and the polygon ring, the latter two already
rounded to 3 decimals as in the formatted output. -/
structure DefineCmd where
  uniqueName : List Char
  center : ℚ × ℚ
  polygon : List (ℚ × ℚ)
deriving DecidableEq, Inhabited

/-- The per-object half of the emission loop body (source lines 146–191):
skip on fewer than 3 deduplicated points, build the concave hull, skip if
it is empty, simplify, and serialize; the `try`/`except` that skips the
object on any exception is modelled by the `none` results (a non-polygon
reaching `hull.exterior`, or an empty coordinate list reaching the
division by `len(coords)`). -/
def finalizeObj (αf : List Point → ℚ → Geom) (σf : List Point → ℚ → List Point)
    (ob : GObj) (copyNumber : ℕ) : Option DefineCmd :=
  if ob.points.length < 3 then none
  else
    let hull := concave_hull αf ob.points (1/2)
    if geomIsEmpty hull then none
    else
      match simplify_polygon σf hull 40 with
      | Geom.poly coords =>
        if coords.isEmpty then none
        else
          let cx := (coords.map Prod.fst).sum / coords.length
          let cy := (coords.map Prod.snd).sum / coords.length
          some
            { uniqueName :=
                if copyNumber > 0 then
                  ob.name ++ "_copy".data ++ (Nat.repr copyNumber).data
                else ob.name
              center := (round3 cx, round3 cy)
              polygon := coords.map (fun p => (round3 p.1, round3 p.2)) }
      | _ => none

/-- Lookup in the name-count mapping (model of `defaultdict(int)` reads). -/
def nameCount (counts : List (List Char × ℕ)) (n : List Char) : ℕ :=
  (counts.lookup n).getD 0

/-- Increment the count of `n` (model of `name_counts[name] += 1` on the
`defaultdict(int)`). -/
def bumpCount : List (List Char × ℕ) → List Char → List (List Char × ℕ)
  | [], n => [(n, 1)]
  | e :: es, n => if e.1 = n then (e.1, e.2 + 1) :: es else e :: bumpCount es n

/-- The emission loop over the object mapping in encounter order
(source lines 138–191): every object — emitted or skipped — advances its
name's count before the skip checks run. -/
def processGo (αf : List Point → ℚ → Geom) (σf : List Point → ℚ → List Point)
    (counts : List (List Char × ℕ)) : List (Int × GObj) → List DefineCmd
  | [] => []
  | e :: es =>
    match finalizeObj αf σf e.2 (nameCount counts e.2.name) with
    | none => processGo αf σf (bumpCount counts e.2.name) es
    | some cmd => cmd :: processGo αf σf (bumpCount counts e.2.name) es

/-- The full emission pass, starting from empty name counts. -/
def processObjects (αf : List Point → ℚ → Geom)
    (σf : List Point → ℚ → List Point) (objs : List (Int × GObj)) :
    List DefineCmd :=
  processGo αf σf [] objs

/-- The name counts accumulated by processing the objects `xs`. -/
def countsAfter (counts : List (List Char × ℕ)) (xs : List (Int × GObj)) :
    List (List Char × ℕ) :=
  xs.foldl (fun c e => bumpCount c e.2.name) counts

/-- Failure of the hull stage for one object: the concave hull (with its
convex fallback) is empty, or what survives simplification is not a
usable non-empty polygon ring. -/
def hullFails (αf : List Point → ℚ → Geom) (σf : List Point → ℚ → List Point)
    (ob : GObj) : Bool :=
  let hull := concave_hull αf ob.points (1/2)
  geomIsEmpty hull ||
    (match simplify_polygon σf hull 40 with
     | Geom.poly r => r.isEmpty
     | _ => true)

/-! ## Emitter lemmas (claims C1, C4, C5) -/

lemma nameCount_nil (n : List Char) : nameCount [] n = 0 := rfl

lemma nameCount_bumpCount (counts : List (List Char × ℕ)) (m n : List Char) :
    nameCount (bumpCount counts m) n =
      nameCount counts n + if m = n then 1 else 0 := by
  induction counts with
  | nil =>
    by_cases h : m = n
    · subst h
      simp [bumpCount, nameCount, List.lookup]
    · have hb : (n == m) = false := beq_eq_false_iff_ne.mpr (fun h2 => h h2.symm)
      simp [bumpCount, nameCount, List.lookup, hb, h]
  | cons e es ih =>
    rcases e with ⟨k, v⟩
    by_cases hk : k = m
    · subst hk
      rw [show bumpCount ((k, v) :: es) k = (k, v + 1) :: es from by simp [bumpCount]]
      by_cases hn : n = k
      · subst hn
        simp [nameCount, List.lookup]
      · have hb : (n == k) = false := beq_eq_false_iff_ne.mpr hn
        have hkn : ¬ k = n := fun h2 => hn h2.symm
        simp [nameCount, List.lookup, hb, hkn]
    · rw [show bumpCount ((k, v) :: es) m = (k, v) :: bumpCount es m from by
        simp [bumpCount, hk]]
      by_cases hn : n = k
      · subst hn
        have hmn : ¬ m = n := fun h2 => hk h2.symm
        simp [nameCount, List.lookup, hmn]
      · have hb : (n == k) = false := beq_eq_false_iff_ne.mpr hn
        simp only [nameCount, List.lookup, hb]
        exact ih

lemma processGo_append (αf : List Point → ℚ → Geom)
    (σf : List Point → ℚ → List Point) (xs : List (Int × GObj)) :
    ∀ (counts : List (List Char × ℕ)) (ys : List (Int × GObj)),
      processGo αf σf counts (xs ++ ys) =
        processGo αf σf counts xs ++ processGo αf σf (countsAfter counts xs) ys := by
  induction xs with
  | nil => intro counts ys; rfl
  | cons e es ih =>
    intro counts ys
    rw [List.cons_append]
    show (match finalizeObj αf σf e.2 (nameCount counts e.2.name) with
      | none => processGo αf σf (bumpCount counts e.2.name) (es ++ ys)
      | some cmd => cmd :: processGo αf σf (bumpCount counts e.2.name) (es ++ ys)) = _
    rcases hf : finalizeObj αf σf e.2 (nameCount counts e.2.name) with - | cmd <;>
      simp only [processGo, hf, ih (bumpCount counts e.2.name) ys, countsAfter,
        List.foldl_cons, List.cons_append]

lemma countsAfter_append_singleton (counts : List (List Char × ℕ))
    (xs : List (Int × GObj)) (e : Int × GObj) :
    countsAfter counts (xs ++ [e]) =
      bumpCount (countsAfter counts xs) e.2.name := by
  unfold countsAfter
  rw [List.foldl_append]
  rfl

lemma nameCount_countsAfter (xs : List (Int × GObj)) :
    ∀ (counts : List (List Char × ℕ)) (n : List Char),
      nameCount (countsAfter counts xs) n =
        nameCount counts n + (xs.filter (fun e => e.2.name = n)).length := by
  induction xs with
  | nil => intro counts n; simp [countsAfter]
  | cons e es ih =>
    intro counts n
    show nameCount (countsAfter (bumpCount counts e.2.name) es) n = _
    rw [ih (bumpCount counts e.2.name) n, nameCount_bumpCount, List.filter_cons]
    by_cases h : e.2.name = n <;> (simp [h]; try omega)

lemma processGo_length_le (αf : List Point → ℚ → Geom)
    (σf : List Point → ℚ → List Point) (objs : List (Int × GObj)) :
    ∀ counts : List (List Char × ℕ),
      (processGo αf σf counts objs).length ≤ objs.length := by
  induction objs with
  | nil => intro counts; simp [processGo]
  | cons e es ih =>
    intro counts
    show (match finalizeObj αf σf e.2 (nameCount counts e.2.name) with
      | none => processGo αf σf (bumpCount counts e.2.name) es
      | some cmd => cmd :: processGo αf σf (bumpCount counts e.2.name) es).length ≤ _
    rcases hf : finalizeObj αf σf e.2 (nameCount counts e.2.name) with - | cmd
    · calc (processGo αf σf (bumpCount counts e.2.name) es).length
          ≤ es.length := ih _
        _ ≤ (e :: es).length := by simp
    · simpa using Nat.succ_le_succ (ih (bumpCount counts e.2.name))

lemma finalizeObj_none_iff (αf : List Point → ℚ → Geom)
    (σf : List Point → ℚ → List Point) (ob : GObj) (c : ℕ) :
    finalizeObj αf σf ob c = none ↔
      ob.points.length < 3 ∨ hullFails αf σf ob = true := by
  unfold finalizeObj hullFails
  by_cases h3 : ob.points.length < 3
  · simp [h3]
  · rw [if_neg h3]
    dsimp only
    rcases he : geomIsEmpty (concave_hull αf ob.points (1/2)) with - | -
    · rw [if_neg Bool.false_ne_true]
      rcases hs : simplify_polygon σf (concave_hull αf ob.points (1/2)) 40 with
        - | p | ps | r | rs <;> simp [h3]
    · simp [h3]

/-! ## Distinct object ids in the scanner mapping -/

lemma lookup_isSome_iff_mem (objs : List (Int × GObj)) (id : Int) :
    (List.lookup id objs).isSome = true ↔ id ∈ objs.map Prod.fst := by
  induction objs with
  | nil => simp [List.lookup]
  | cons e es ih =>
    rcases e with ⟨k, v⟩
    by_cases h : id = k
    · subst h
      simp [List.lookup]
    · have hb : (id == k) = false := beq_eq_false_iff_ne.mpr h
      simp only [List.lookup, hb, List.map_cons, List.mem_cons]
      rw [ih]
      constructor
      · exact Or.inr
      · rintro (h2 | h2)
        · exact absurd h2 h
        · exact h2

lemma addPointTo_map_fst (objs : List (Int × GObj)) (id : Int) (p : Point) :
    (addPointTo objs id p).map Prod.fst = objs.map Prod.fst := by
  unfold addPointTo
  rw [List.map_map]
  apply List.map_congr_left
  intro e _
  dsimp only [Function.comp]
  split <;> rfl

lemma objStart_keys_nodup (st : ScanState) (ls : List Char)
    (h : (st.objects.map Prod.fst).Nodup) :
    ((objStart st ls).objects.map Prod.fst).Nodup := by
  unfold objStart
  dsimp only
  split
  · cases hp : parseIdFrom ls with
    | none => exact h
    | some objId =>
      dsimp only
      split
      · exact h
      · rename_i hlook
        rw [List.map_append]
        simp only [List.map_cons, List.map_nil]
        rw [List.nodup_append]
        refine ⟨h, List.nodup_singleton _, ?_⟩
        intro a ha hb
        simp only [List.mem_singleton] at hb
        rw [hb] at ha
        have hsome : (List.lookup objId st.objects).isSome = true :=
          (lookup_isSome_iff_mem st.objects objId).mpr ha
        exact hlook (by rw [hsome])
  · exact h

lemma motionUpd_keys_nodup (st : ScanState) (ls : List Char)
    (h : (st.objects.map Prod.fst).Nodup) :
    ((motionUpd st ls).objects.map Prod.fst).Nodup := by
  unfold motionUpd
  rcases hc : st.current with - | cid
  · exact h
  · dsimp only
    split
    · rcases extract_xy ls with ⟨- | x, - | y⟩ <;>
        first
        | exact h
        | (dsimp only; rw [addPointTo_map_fst]; exact h)
    · exact h

lemma scanStep_keys_nodup (st : ScanState) (i : ℕ) (line : List Char)
    (h : (st.objects.map Prod.fst).Nodup) :
    ((scanStep st i line).objects.map Prod.fst).Nodup := by
  unfold scanStep bodyStep
  have ha : (anchorUpd st i (stripL line)).objects = st.objects :=
    anchorUpd_objects st i (stripL line)
  split
  · apply objStart_keys_nodup
    rw [ha]
    exact h
  · split
    · show ((anchorUpd st i (stripL line)).objects.map Prod.fst).Nodup
      rw [ha]
      exact h
    · split
      · show ((anchorUpd st i (stripL line)).objects.map Prod.fst).Nodup
        rw [ha]
        exact h
      · dsimp only
        split
        · apply motionUpd_keys_nodup
          show ((anchorUpd st i (stripL line)).objects.map Prod.fst).Nodup
          rw [ha]
          exact h
        · apply motionUpd_keys_nodup
          rw [ha]
          exact h

lemma scanLines_keys_nodup (lines : List (List Char)) :
    (((scanLines lines).objects.map Prod.fst)).Nodup := by
  unfold scanLines
  rw [show lines.enum = lines.enumFrom 0 from rfl]
  have main : ∀ (n : ℕ) (st : ScanState), (st.objects.map Prod.fst).Nodup →
      ((((lines.enumFrom n).foldl (fun st p => scanStep st p.1 p.2) st)).objects.map
        Prod.fst).Nodup := by
    induction lines with
    | nil => intro n st h; simpa [List.enumFrom] using h
    | cons l ls ih =>
      intro n st h
      rw [List.enumFrom_cons, List.foldl_cons]
      exact ih (n + 1) _ (scanStep_keys_nodup st n l h)
  exact main 0 initState List.nodup_nil

/-! ## Concrete instantiations of the external collaborators -/

/-- A concrete stand-in for the external `alphashape` call in concrete
runs; it is never consulted for objects with fewer than 4 points. -/
def trivAlpha : List Point → ℚ → Geom := fun _ _ => Geom.empty

/-- A concrete instance of the external shapely `simplify` that returns
every ring unchanged (what shapely does when no vertex deviates by more
than the tolerance). -/
def idSimp : List Point → ℚ → List Point := fun r _ => r

/-- A triangle object with 3 distinct non-collinear points. -/
def obTri : GObj := ⟨"Cube".data, [(0, 0), (4, 0), (0, 4)]⟩

/-- An object with only 2 deduplicated points (always skipped). -/
def obTwo : GObj := ⟨"Cube".data, [(0, 0), (1, 0)]⟩

/-- The command emitted for `obTri` at copy index 0. -/
def cmdTri : DefineCmd :=
  ⟨"Cube".data, (1, 1), [(0, 0), (4, 0), (0, 4), (0, 0)]⟩

/-- The command emitted for `obTri` at copy index 1. -/
def cmdTriCopy : DefineCmd :=
  ⟨"Cube_copy1".data, (1, 1), [(0, 0), (4, 0), (0, 4), (0, 0)]⟩

/-- A full concrete input stream: two objects both named `Cube`, the
first (id 1) with only 2 distinct points, the second (id 2) with 3. -/
def cexLines : List (List Char) :=
  ["G28\n".data,
   "; printing object Cube id: 1\n".data,
   "G1 X0 Y0\n".data,
   "G1 X1 Y0\n".data,
   "; stop printing object\n".data,
   "; printing object Cube id: 2\n".data,
   "G1 X0 Y0\n".data,
   "G1 X4 Y0\n".data,
   "G1 X0 Y4\n".data,
   "; stop printing object\n".data]

lemma simplifyGo_done (σf : List Point → ℚ → List Point) (ring : List Point)
    (maxP : ℕ) (tol : ℚ) (cur : List Point) (h : cur.length ≤ maxP) :
    simplifyGo σf ring maxP tol cur = (cur, tol) := by
  rw [simplifyGo]
  rw [dif_neg]
  rintro ⟨h1, -⟩
  omega

lemma simplify_polygon_id_short (ring : List Point) (maxP : ℕ)
    (h : ring.length ≤ maxP) :
    simplify_polygon idSimp (Geom.poly ring) maxP = Geom.poly ring := by
  show Geom.poly (simplifyGo idSimp ring maxP (1/10) (idSimp ring (1/10))).1 = _
  rw [simplifyGo_done idSimp ring maxP (1/10) (idSimp ring (1/10)) h]
  rfl

lemma concave_hull_obTri :
    concave_hull trivAlpha obTri.points (1/2) =
      Geom.poly [(0, 0), (4, 0), (0, 4), (0, 0)] := by decide

lemma finalizeObj_obTri_zero :
    finalizeObj trivAlpha idSimp obTri 0 = some cmdTri := by
  unfold finalizeObj
  rw [if_neg (by decide)]
  dsimp only
  rw [concave_hull_obTri, simplify_polygon_id_short _ 40 (by decide)]
  rw [if_neg (by decide)]
  dsimp only
  rw [if_neg (by decide)]
  decide

lemma finalizeObj_obTri_one :
    finalizeObj trivAlpha idSimp obTri 1 = some cmdTriCopy := by
  unfold finalizeObj
  rw [if_neg (by decide)]
  dsimp only
  rw [concave_hull_obTri, simplify_polygon_id_short _ 40 (by decide)]
  rw [if_neg (by decide)]
  dsimp only
  rw [if_neg (by decide)]
  decide

/-! ## Claim C4: emission bound, omission condition, skip-and-continue -/

lemma processGo_singleton (αf : List Point → ℚ → Geom)
    (σf : List Point → ℚ → List Point) (counts : List (List Char × ℕ))
    (e : Int × GObj) :
    processGo αf σf counts [e] =
      (finalizeObj αf σf e.2 (nameCount counts e.2.name)).toList := by
  show (match finalizeObj αf σf e.2 (nameCount counts e.2.name) with
    | none => processGo αf σf (bumpCount counts e.2.name) []
    | some cmd => cmd :: processGo αf σf (bumpCount counts e.2.name) []) = _
  rcases hf : finalizeObj αf σf e.2 (nameCount counts e.2.name) with - | cmd <;>
    simp [processGo]

/-- C4: the scanner's object mapping has pairwise-distinct ids, the number
of emitted commands is at most the number of objects (hence of distinct
ids), an object is omitted exactly when its deduplicated point count is
below 3 or the hull stage fails (`hullFails`: empty concave-with-fallback
hull, or nothing usable surviving simplification), and every such failure
skips only that object and continues with the remaining ones. -/
theorem emission_bound_and_omission (αf : List Point → ℚ → Geom)
    (σf : List Point → ℚ → List Point) (objs : List (Int × GObj)) :
    (∀ lines, ((scanLines lines).objects.map Prod.fst).Nodup) ∧
    (processObjects αf σf objs).length ≤ objs.length ∧
    (∀ ob c, finalizeObj αf σf ob c = none ↔
      ob.points.length < 3 ∨ hullFails αf σf ob = true) ∧
    (∀ counts e es, finalizeObj αf σf e.2 (nameCount counts e.2.name) = none →
      processGo αf σf counts (e :: es) =
        processGo αf σf (bumpCount counts e.2.name) es) := by
  refine ⟨scanLines_keys_nodup, processGo_length_le αf σf objs [],
    finalizeObj_none_iff αf σf, ?_⟩
  intro counts e es hf
  show (match finalizeObj αf σf e.2 (nameCount counts e.2.name) with
    | none => processGo αf σf (bumpCount counts e.2.name) es
    | some cmd => cmd :: processGo αf σf (bumpCount counts e.2.name) es) = _
  rw [hf]

theorem emission_bound_and_omission_witness :
    finalizeObj trivAlpha idSimp obTwo 0 = none ∧
    processGo trivAlpha idSimp [] [(1, obTwo)] =
      processGo trivAlpha idSimp (bumpCount [] "Cube".data) [] :=
  ⟨((emission_bound_and_omission trivAlpha idSimp []).2.2.1 obTwo 0).mpr
      (Or.inl (by decide)),
    (emission_bound_and_omission trivAlpha idSimp []).2.2.2 [] (1, obTwo) []
      (((emission_bound_and_omission trivAlpha idSimp []).2.2.1 obTwo 0).mpr
        (Or.inl (by decide)))⟩

/-! ## Claim C1: copy indices -/

/-- C1 counterexample: on a stream with two objects both named `Cube`
where the first (id 1) is skipped for having only 2 points, the single
emitted command is named `Cube_copy1`, not `Cube` — the skipped object
advanced the copy index even though it was never emitted. -/
theorem copyIndex_counterexample :
    (processObjects trivAlpha idSimp (scanLines cexLines).objects).map
        (fun c => c.uniqueName) = ["Cube_copy1".data] ∧
    "Cube_copy1".data ≠ "Cube".data := by
  have hobjs : (scanLines cexLines).objects = [(1, obTwo), (2, obTri)] := by
    decide
  have h1 : finalizeObj trivAlpha idSimp obTwo (nameCount [] obTwo.name) = none := by
    decide
  have h2 : finalizeObj trivAlpha idSimp obTri
      (nameCount (bumpCount [] obTwo.name) obTri.name) = some cmdTriCopy := by
    rw [show nameCount (bumpCount [] obTwo.name) obTri.name = 1 from by decide]
    exact finalizeObj_obTri_one
  constructor
  · rw [processObjects, hobjs]
    simp only [processGo, h1, h2]
    decide
  · decide

/-- C1 (amended): the copy index assigned to an object equals the number
of previously *encountered* objects with the same name — skipped objects
(too few points or hull failure) do advance the copy index of later
same-named objects.  Concretely: after any prefix `pre` of the object
mapping, the next object is finalized with copy index
`count of same-named entries of pre`, its command (if any) follows the
commands of `pre`, processing continues with the rest, and an emitted
command's display name is the bare name for index 0 and
`name_copy<index>` otherwise. -/
theorem copyIndex_counts_encountered (αf : List Point → ℚ → Geom)
    (σf : List Point → ℚ → List Point) (pre post : List (Int × GObj))
    (id : Int) (ob : GObj) :
    processObjects αf σf (pre ++ (id, ob) :: post) =
      processObjects αf σf pre ++
        ((finalizeObj αf σf ob
            ((pre.filter (fun e => e.2.name = ob.name)).length)).toList ++
          processGo αf σf (countsAfter [] (pre ++ [(id, ob)])) post) ∧
    (∀ c cmd, finalizeObj αf σf ob c = some cmd →
      cmd.uniqueName =
        if c = 0 then ob.name
        else ob.name ++ "_copy".data ++ (Nat.repr c).data) := by
  constructor
  · have hsplit : pre ++ (id, ob) :: post = (pre ++ [(id, ob)]) ++ post := by
      simp
    rw [processObjects, hsplit, processGo_append, processGo_append,
      processGo_singleton]
    have hcount : nameCount (countsAfter [] pre) (id, ob).2.name =
        (pre.filter (fun e => e.2.name = ob.name)).length := by
      rw [nameCount_countsAfter]
      simp [nameCount, List.lookup]
    rw [hcount, List.append_assoc]
    rfl
  · intro c cmd h
    unfold finalizeObj at h
    split at h
    · exact absurd h (by simp)
    · dsimp only at h
      split at h
      · exact absurd h (by simp)
      · split at h
        · split at h
          · exact absurd h (by simp)
          · injection h with h2
            rw [← h2]
            rcases c with - | k <;> simp
        · exact absurd h (by simp)

theorem copyIndex_counts_encountered_witness :
    finalizeObj trivAlpha idSimp obTri 1 = some cmdTriCopy ∧
    cmdTriCopy.uniqueName = "Cube".data ++ "_copy".data ++ (Nat.repr 1).data :=
  ⟨finalizeObj_obTri_one, by
    have h := (copyIndex_counts_encountered trivAlpha idSimp [] [] 2 obTri).2 1
      cmdTriCopy finalizeObj_obTri_one
    simpa using h⟩

/-! ## Claim C5: centroid and rounding -/

/-- C5: every emitted command's centre is the arithmetic mean of the
simplified ring's stored vertex list — the duplicated closing vertex
included exactly as stored — rounded to 3 decimals, and every ring
coordinate of the serialized command is rounded to 3 decimals. -/
theorem centroid_and_rounding (αf : List Point → ℚ → Geom)
    (σf : List Point → ℚ → List Point) (ob : GObj) (c : ℕ) (cmd : DefineCmd)
    (h : finalizeObj αf σf ob c = some cmd) :
    ∃ coords,
      simplify_polygon σf (concave_hull αf ob.points (1/2)) 40 =
        Geom.poly coords ∧
      coords ≠ [] ∧
      cmd.center =
        (round3 ((coords.map Prod.fst).sum / (coords.length : ℚ)),
         round3 ((coords.map Prod.snd).sum / (coords.length : ℚ))) ∧
      cmd.polygon = coords.map (fun p => (round3 p.1, round3 p.2)) := by
  unfold finalizeObj at h
  split at h
  · exact absurd h (by simp)
  · dsimp only at h
    split at h
    · exact absurd h (by simp)
    · split at h
      · rename_i coords heq
        split at h
        · exact absurd h (by simp)
        · rename_i hne
          refine ⟨coords, heq, ?_, ?_, ?_⟩
          · intro hc
            rw [hc] at hne
            exact hne rfl
          · injection h with h2
            rw [← h2]
          · injection h with h2
            rw [← h2]
      · exact absurd h (by simp)

theorem centroid_and_rounding_witness :
    finalizeObj trivAlpha idSimp obTri 0 = some cmdTri ∧
    (∃ coords,
      simplify_polygon idSimp (concave_hull trivAlpha obTri.points (1/2)) 40 =
        Geom.poly coords ∧
      coords ≠ [] ∧
      cmdTri.center =
        (round3 ((coords.map Prod.fst).sum / (coords.length : ℚ)),
         round3 ((coords.map Prod.snd).sum / (coords.length : ℚ))) ∧
      cmdTri.polygon = coords.map (fun p => (round3 p.1, round3 p.2))) :=
  ⟨finalizeObj_obTri_zero,
    centroid_and_rounding trivAlpha idSimp obTri 0 cmdTri finalizeObj_obTri_zero⟩

/-! ## Claim C3: the simplification loop -/

lemma tolN_step (n : ℕ) :
    (1/10 : ℚ) + (n : ℚ) * (1/2) + 1/2 = 1/10 + ((n + 1 : ℕ) : ℚ) * (1/2) := by
  push_cast
  ring

lemma simplifyGo_spec (σf : List Point → ℚ → List Point) (ring : List Point) :
    ∀ (m n : ℕ), 20 ≤ n + m → n ≤ 20 →
      ∃ k : ℕ, n ≤ k ∧ k ≤ 20 ∧
        simplifyGo σf ring 40 (1/10 + (n : ℚ) * (1/2))
            (σf ring (1/10 + (n : ℚ) * (1/2))) =
          (σf ring (1/10 + (k : ℚ) * (1/2)), 1/10 + (k : ℚ) * (1/2)) ∧
        ((σf ring (1/10 + (k : ℚ) * (1/2))).length ≤ 40 ∨
          (10 : ℚ) ≤ 1/10 + (k : ℚ) * (1/2)) ∧
        (∀ j : ℕ, n ≤ j → j < k →
          40 < (σf ring (1/10 + (j : ℚ) * (1/2))).length ∧
            (1/10 + (j : ℚ) * (1/2) : ℚ) < 10) := by
  intro m
  induction m with
  | zero =>
    intro n h20 hn
    have hn20 : n = 20 := by omega
    subst hn20
    refine ⟨20, le_refl _, le_refl _, ?_, ?_, ?_⟩
    · rw [simplifyGo, dif_neg]
      rintro ⟨-, hlt⟩
      push_cast at hlt
      linarith
    · right
      push_cast
      norm_num
    · intro j hj hjk
      omega
  | succ m ih =>
    intro n h20 hn
    by_cases hc : 40 < (σf ring (1/10 + (n : ℚ) * (1/2))).length ∧
        (1/10 + (n : ℚ) * (1/2) : ℚ) < 10
    · have hn19 : n < 20 := by
        rcases hc with ⟨-, hlt⟩
        have hq : (n : ℚ) < 20 := by linarith
        exact_mod_cast hq
      have hstep : simplifyGo σf ring 40 (1/10 + (n : ℚ) * (1/2))
          (σf ring (1/10 + (n : ℚ) * (1/2))) =
          simplifyGo σf ring 40 (1/10 + ((n + 1 : ℕ) : ℚ) * (1/2))
            (σf ring (1/10 + ((n + 1 : ℕ) : ℚ) * (1/2))) := by
        rw [simplifyGo, dif_pos hc, tolN_step]
      obtain ⟨k, hk1, hk2, hk3, hk4, hk5⟩ := ih (n + 1) (by omega) (by omega)
      refine ⟨k, by omega, hk2, ?_, hk4, ?_⟩
      · rw [hstep]
        exact hk3
      · intro j hj hjk
        rcases Nat.eq_or_lt_of_le hj with he | hlt
        · rw [← he]
          exact hc
        · exact hk5 j (by omega) hjk
    · refine ⟨n, le_refl _, hn, ?_, ?_, ?_⟩
      · rw [simplifyGo, dif_neg hc]
      · rcases not_and_or.mp hc with h | h
        · left
          omega
        · right
          linarith [not_lt.mp h]
      · intro j hj hjk
        omega

/-- C3: on any input ring, `simplify_polygon` with vertex cap 40 starts at
tolerance 0.1 and, while the result has more vertices than the cap and the
tolerance is below 10, raises the tolerance by exactly 0.5 and
re-simplifies the original ring (the result is always the external
simplifier applied to the original ring at the final tolerance
`0.1 + k·0.5`); the loop terminates after at most 20 escalations, and on
exit the stored ring has at most 40 vertices or the tolerance has
exceeded the bound 10.0. -/
theorem simplify_polygon_loop (σf : List Point → ℚ → List Point)
    (ring : List Point) :
    ∃ k : ℕ, k ≤ 20 ∧
      simplify_polygon σf (Geom.poly ring) 40 =
        Geom.poly (σf ring (1/10 + (k : ℚ) * (1/2))) ∧
      ((σf ring (1/10 + (k : ℚ) * (1/2))).length ≤ 40 ∨
        (10 : ℚ) ≤ 1/10 + (k : ℚ) * (1/2)) ∧
      (∀ j : ℕ, j < k →
        40 < (σf ring (1/10 + (j : ℚ) * (1/2))).length ∧
          (1/10 + (j : ℚ) * (1/2) : ℚ) < 10) := by
  obtain ⟨k, -, hk2, hk3, hk4, hk5⟩ :=
    simplifyGo_spec σf ring 20 0 (by omega) (by omega)
  have h0 : (1/10 : ℚ) + ((0 : ℕ) : ℚ) * (1/2) = 1/10 := by norm_num
  rw [h0] at hk3
  refine ⟨k, hk2, ?_, hk4, fun j hj => hk5 j (Nat.zero_le j) hj⟩
  show Geom.poly (simplifyGo σf ring 40 (1/10) (σf ring (1/10))).1 = _
  rw [hk3]

theorem simplify_polygon_loop_witness :
    ∃ k : ℕ, k ≤ 20 ∧
      simplify_polygon idSimp (Geom.poly [(0, 0), (4, 0), (0, 4), (0, 0)]) 40 =
        Geom.poly (idSimp [(0, 0), (4, 0), (0, 4), (0, 0)]
          (1/10 + (k : ℚ) * (1/2))) ∧
      ((idSimp [(0, 0), (4, 0), (0, 4), (0, 0)]
          (1/10 + (k : ℚ) * (1/2))).length ≤ 40 ∨
        (10 : ℚ) ≤ 1/10 + (k : ℚ) * (1/2)) ∧
      (∀ j : ℕ, j < k →
        40 < (idSimp [(0, 0), (4, 0), (0, 4), (0, 0)]
            (1/10 + (j : ℚ) * (1/2))).length ∧
          (1/10 + (j : ℚ) * (1/2) : ℚ) < 10) :=
  simplify_polygon_loop idSimp [(0, 0), (4, 0), (0, 4), (0, 0)]

/-! ## Claim C8: three non-collinear points give their triangle -/

lemma sortLex_three (p1 p2 p3 : Point) :
    ∃ a b c : Point, sortLex [p1, p2, p3] = [a, b, c] ∧
      [a, b, c].Perm [p1, p2, p3] ∧
      (crossP a b c = crossP p1 p2 p3 ∨ crossP a b c = -crossP p1 p2 p3) := by
  have h3 : sortLex [p1, p2, p3] = insertLex p1 (insertLex p2 [p3]) := rfl
  by_cases hA : lexLe p2 p3 = true
  · have h2 : insertLex p2 [p3] = [p2, p3] := by simp [insertLex, hA]
    by_cases hB : lexLe p1 p2 = true
    · refine ⟨p1, p2, p3, ?_, List.Perm.refl _, Or.inl rfl⟩
      rw [h3, h2]
      simp [insertLex, hB]
    · by_cases hC : lexLe p1 p3 = true
      · refine ⟨p2, p1, p3, ?_, List.Perm.swap p1 p2 [p3],
          Or.inr (by unfold crossP; ring)⟩
        rw [h3, h2]
        simp [insertLex, hB, hC]
      · refine ⟨p2, p3, p1, ?_,
          (List.Perm.cons p2 (List.Perm.swap p1 p3 [])).trans
            (List.Perm.swap p1 p2 [p3]),
          Or.inl (by unfold crossP; ring)⟩
        rw [h3, h2]
        simp [insertLex, hB, hC]
  · have h2 : insertLex p2 [p3] = [p3, p2] := by simp [insertLex, hA]
    by_cases hB : lexLe p1 p3 = true
    · refine ⟨p1, p3, p2, ?_, List.Perm.cons p1 (List.Perm.swap p2 p3 []),
        Or.inr (by unfold crossP; ring)⟩
      rw [h3, h2]
      simp [insertLex, hB]
    · by_cases hC : lexLe p1 p2 = true
      · refine ⟨p3, p1, p2, ?_,
          (List.Perm.swap p1 p3 [p2]).trans
            (List.Perm.cons p1 (List.Perm.swap p2 p3 [])),
          Or.inl (by unfold crossP; ring)⟩
        rw [h3, h2]
        simp [insertLex, hB, hC]
      · refine ⟨p3, p2, p1, ?_,
          (List.Perm.swap p2 p3 [p1]).trans
            ((List.Perm.cons p2 (List.Perm.swap p1 p3 [])).trans
              (List.Perm.swap p1 p2 [p3])),
          Or.inr (by unfold crossP; ring)⟩
        rw [h3, h2]
        simp [insertLex, hB, hC]

lemma halfHull_three (a b c : Point) :
    halfHull [a, b, c] = if crossP a b c ≤ 0 then [a, c] else [a, b, c] := by
  unfold halfHull
  simp only [List.foldl]
  by_cases h : crossP a b c ≤ 0
  · rw [show addPoint c (addPoint b (addPoint a [])) = [c, a] from by
      simp [addPoint, h]]
    simp [h]
  · rw [show addPoint c (addPoint b (addPoint a [])) = [c, b, a] from by
      simp [addPoint, h]]
    simp [h]

lemma chain_three (a b c : Point) (h : crossP a b c ≠ 0) :
    (halfHull [a, b, c]).dropLast ++ (halfHull ([a, b, c].reverse)).dropLast =
      if crossP a b c ≤ 0 then [a, c, b] else [a, b, c] := by
  have hrev : crossP c b a = -crossP a b c := by unfold crossP; ring
  rw [show ([a, b, c] : List Point).reverse = [c, b, a] from by simp]
  rw [halfHull_three a b c, halfHull_three c b a, hrev]
  rcases lt_or_gt_of_ne h with hlt | hgt
  · rw [if_pos (le_of_lt hlt), if_neg (by linarith), if_pos (le_of_lt hlt)]
    rfl
  · rw [if_neg (by linarith), if_pos (by linarith), if_neg (by linarith)]
    rfl

lemma convexHullPts_three (p1 p2 p3 : Point) (h : crossP p1 p2 p3 ≠ 0) :
    ∃ a b c : Point, convexHullPts [p1, p2, p3] = [a, b, c] ∧
      [a, b, c].Perm [p1, p2, p3] := by
  obtain ⟨a, b, c, hs, hperm, hsign⟩ := sortLex_three p1 p2 p3
  have hne : crossP a b c ≠ 0 := by
    rcases hsign with h2 | h2 <;> rw [h2] <;> simpa using h
  unfold convexHullPts
  rw [hs]
  rw [if_neg (by norm_num)]
  rw [chain_three a b c hne]
  by_cases hle : crossP a b c ≤ 0
  · rw [if_pos hle]
    exact ⟨a, c, b, rfl,
      (List.Perm.cons a (List.Perm.swap b c [])).trans hperm⟩
  · rw [if_neg hle]
    exact ⟨a, b, c, rfl, hperm⟩

/-- C8: for exactly 3 distinct non-collinear points (non-zero orientation
cross product) and any tightness parameter, the hull builder returns the
convex hull directly — a polygon whose closed exterior ring consists of
exactly those 3 points (plus the repeated closing vertex), whatever the
external alpha-shape function is. -/
theorem hull_of_three_noncollinear (αf : List Point → ℚ → Geom) (alpha : ℚ)
    (p1 p2 p3 : Point) (_h12 : p1 ≠ p2) (_h13 : p1 ≠ p3) (_h23 : p2 ≠ p3)
    (hnc : crossP p1 p2 p3 ≠ 0) :
    ∃ ring : List Point,
      concave_hull αf [p1, p2, p3] alpha = Geom.poly ring ∧
      ring.length = 4 ∧ ring.head? = ring.getLast? ∧
      ring.dropLast.Perm [p1, p2, p3] := by
  obtain ⟨a, b, c, hcp, hperm⟩ := convexHullPts_three p1 p2 p3 hnc
  refine ⟨[a, b, c, a], ?_, rfl, rfl, ?_⟩
  · unfold concave_hull
    rw [if_pos (by norm_num)]
    unfold convex_hull
    rw [hcp]
    rfl
  · rw [show ([a, b, c, a] : List Point).dropLast = [a, b, c] from rfl]
    exact hperm

theorem hull_of_three_noncollinear_witness :
    (((0 : ℚ), (0 : ℚ)) : Point) ≠ (2, 0) ∧
    (((0 : ℚ), (0 : ℚ)) : Point) ≠ (0, 2) ∧
    (((2 : ℚ), (0 : ℚ)) : Point) ≠ (0, 2) ∧
    crossP (0, 0) (2, 0) (0, 2) ≠ 0 ∧
    (∃ ring : List Point,
      concave_hull trivAlpha [(0, 0), (2, 0), (0, 2)] (1/2) = Geom.poly ring ∧
      ring.length = 4 ∧ ring.head? = ring.getLast? ∧
      ring.dropLast.Perm [(0, 0), (2, 0), (0, 2)]) :=
  ⟨by decide, by decide, by decide, by decide,
    hull_of_three_noncollinear trivAlpha (1/2) (0, 0) (2, 0) (0, 2)
      (by decide) (by decide) (by decide) (by decide)⟩

/-! ## Claim C6: splicing the command block into the output -/

/-- The marker line inserted before the command block (source line 198). -/
def genMarker : List Char := "\n; Generated by exact_outline_post.py\n".data

/-- The blank line inserted after the command block (source line 201). -/
def blankLine : List Char := "\n".data

/-- The insertion of the command block into the copied output lines
(source lines 197–201): when there are commands, insert the marker at the
anchor position, each command in reverse order right after it, and a
blank line after the block. -/
def insertCmds (outLines : List (List Char)) (pos : ℕ)
    (cmds : List (List Char)) : List (List Char) :=
  if cmds.isEmpty then outLines
  else
    let o1 := outLines.insertIdx pos genMarker
    let o2 := cmds.reverse.foldl (fun acc c => acc.insertIdx (pos + 1) c) o1
    o2.insertIdx (pos + 1 + cmds.length) blankLine

/-- The output stream of `main` for the given rendered command lines: the
input lines copied through, with the block spliced in at the anchor. -/
def mainOutput (lines cmds : List (List Char)) : List (List Char) :=
  insertCmds lines (insertAnchor lines) cmds

lemma insertIdx_eq_take_cons_drop {α : Type} (a : α) :
    ∀ (n : ℕ) (l : List α), n ≤ l.length →
      l.insertIdx n a = l.take n ++ a :: l.drop n := by
  intro n
  induction n with
  | zero =>
    intro l h
    simp [List.insertIdx_zero]
  | succ n ih =>
    intro l h
    rcases l with - | ⟨x, l⟩
    · simp at h
    · rw [List.insertIdx_succ_cons, ih l (by simpa using h)]
      simp

lemma foldl_insertIdx (k : ℕ) (cmds : List (List Char)) :
    ∀ acc : List (List Char), k ≤ acc.length →
      cmds.reverse.foldl (fun acc c => acc.insertIdx k c) acc =
        acc.take k ++ cmds ++ acc.drop k := by
  induction cmds with
  | nil =>
    intro acc h
    simp
  | cons c cs ih =>
    intro acc h
    rw [List.reverse_cons, List.foldl_append, ih acc h]
    have hlen : (acc.take k).length = k := by
      rw [List.length_take]
      omega
    rw [List.foldl_cons, List.foldl_nil, List.append_assoc,
      insertIdx_eq_take_cons_drop c k _
        (by rw [List.length_append, hlen]; omega),
      List.take_left' hlen, List.drop_left' hlen]
    simp

lemma insertCmds_eq (lines cmds : List (List Char)) (pos : ℕ)
    (hpos : pos ≤ lines.length) (hne : cmds ≠ []) :
    insertCmds lines pos cmds =
      lines.take pos ++ ([genMarker] ++ cmds ++ [blankLine]) ++
        lines.drop pos := by
  unfold insertCmds
  rw [if_neg (by simpa using hne)]
  dsimp only
  rw [insertIdx_eq_take_cons_drop genMarker pos lines hpos]
  have h1 : lines.take pos ++ genMarker :: lines.drop pos =
      (lines.take pos ++ [genMarker]) ++ lines.drop pos := by simp
  have hlenA : (lines.take pos ++ [genMarker]).length = pos + 1 := by
    rw [List.length_append, List.length_take, List.length_singleton]
    omega
  rw [h1, foldl_insertIdx (pos + 1) cmds _
    (by rw [List.length_append, hlenA]; omega),
    List.take_left' hlenA, List.drop_left' hlenA]
  have h2 : (lines.take pos ++ [genMarker]) ++ cmds ++ lines.drop pos =
      ((lines.take pos ++ [genMarker]) ++ cmds) ++ lines.drop pos := by simp
  have hlenB : ((lines.take pos ++ [genMarker]) ++ cmds).length =
      pos + 1 + cmds.length := by
    rw [List.length_append, hlenA]
  rw [h2, insertIdx_eq_take_cons_drop blankLine _ _
      (by rw [List.length_append, hlenB]; omega),
    List.take_left' hlenB, List.drop_left' hlenB]
  simp

/-- C6: the output stream reproduces every input line unchanged and in
order; with no emitted commands it is exactly the input, and otherwise the
emitted command lines form one contiguous block placed immediately before
the anchor line, preceded by the blank/marker line and followed by a blank
line. -/
theorem output_insertion (lines cmds : List (List Char)) :
    (cmds = [] → mainOutput lines cmds = lines) ∧
    (cmds ≠ [] → mainOutput lines cmds =
      lines.take (insertAnchor lines) ++
        ([genMarker] ++ cmds ++ [blankLine]) ++
        lines.drop (insertAnchor lines)) ∧
    lines.take (insertAnchor lines) ++ lines.drop (insertAnchor lines) =
      lines := by
  refine ⟨?_, ?_, List.take_append_drop _ _⟩
  · intro h
    subst h
    rfl
  · intro hne
    exact insertCmds_eq lines cmds (insertAnchor lines)
      (insertAnchor_le_length lines) hne

/-- Concrete stream for the C6 witness. -/
def w6lines : List (List Char) :=
  ["; header\n".data, "G28\n".data, "M105\n".data]

/-- Concrete command block for the C6 witness. -/
def w6cmds : List (List Char) := ["CMD1\n".data, "CMD2\n".data]

theorem output_insertion_witness :
    mainOutput w6lines [] = w6lines ∧
    w6cmds ≠ [] ∧
    mainOutput w6lines w6cmds =
      w6lines.take (insertAnchor w6lines) ++
        ([genMarker] ++ w6cmds ++ [blankLine]) ++
        w6lines.drop (insertAnchor w6lines) :=
  ⟨(output_insertion w6lines []).1 rfl, by decide,
    (output_insertion w6lines w6cmds).2.1 (by decide)⟩

end

end ExactOutline
